import Mathlib

/-!
Shallow embedding of the rental micro-market pipeline of this repository
(src/app.py together with src/src/cluster_markets.py and
src/src/compute_yield.py).

Numeric columns are modelled as rationals.  The benchmark arithmetic of
src/app.py runs on pandas float columns, where division by zero silently
yields infinity or NaN instead of raising; that behaviour is made explicit
here by the type PVal.  Plain rational division q / 0 = 0 of Lean is never
relied on: every theorem whose meaning would depend on a zero denominator
carries the corresponding nonzero hypothesis, and the zero-median code path
goes through PVal.
-/

namespace Rental

/-- The three pricing labels produced by the label function in src/app.py
(the source decorates them with emoji; the text is what matters here). -/
inductive Label where
  | Underpriced
  | Fair
  | Overpriced
  deriving DecidableEq

/-- A pandas float value as produced by the benchmark arithmetic: a finite
rational, positive infinity, negative infinity, or NaN. -/
inductive PVal where
  | fin (q : ℚ)
  | pinf
  | ninf
  | nan
  deriving DecidableEq

/-- Float strict comparison: NaN compares false against everything, negative
infinity is below every finite value, positive infinity above. -/
def PVal.lt : PVal → PVal → Bool
  | .fin a, .fin b => a < b
  | .fin _, .pinf => true
  | .ninf, .fin _ => true
  | .ninf, .pinf => true
  | _, _ => false

/-- The label function of src/app.py (lines 139-147): x < -10 gives
Underpriced, x > 10 gives Overpriced, anything else (including NaN) gives
Fair; comparisons follow float semantics. -/
def label (x : PVal) : Label :=
  if PVal.lt x (.fin (-10)) then .Underpriced
  else if PVal.lt (.fin 10) x then .Overpriced
  else .Fair

/-- Float division of finite values as pandas performs it: division by zero
yields infinity, negative infinity or NaN depending on the numerator sign,
never an exception. -/
def pdiv (a b : ℚ) : PVal :=
  if b = 0 then (if 0 < a then .pinf else if a < 0 then .ninf else .nan)
  else .fin (a / b)

/-- Multiplication of a float by the positive constant 100: scales finite
values and fixes infinities and NaN. -/
def pmul100 : PVal → PVal
  | .fin q => .fin (q * 100)
  | .pinf => .pinf
  | .ninf => .ninf
  | .nan => .nan

/-- pricing_gap_pct of src/app.py: ((rent_per_sqft - cluster_median) /
cluster_median) * 100, in float semantics. -/
def pricing_gap_pct (r m : ℚ) : PVal := pmul100 (pdiv (r - m) m)

/-- One input record.  The optional upload columns are None when absent;
src/app.py fills them with df.get defaults before clustering. -/
structure Row where
  latitude : ℚ
  longitude : ℚ
  carpet_area_sqft : ℚ
  monthly_rent : ℚ
  amenities_count : Option ℚ
  building_age : Option ℚ
  deriving DecidableEq, Inhabited

/-- The rent_per_sqft column of src/app.py: monthly_rent / carpet_area_sqft. -/
def rent_per_sqft (r : Row) : ℚ := r.monthly_rent / r.carpet_area_sqft

/-- Ascending sort used to define the median. -/
def sortAsc (l : List ℚ) : List ℚ := List.insertionSort (· ≤ ·) l

/-- The median as computed by pandas GroupBy.median: the middle value of the
sorted list when the length is odd, the mean of the two middle values when it
is even. -/
def median (l : List ℚ) : ℚ :=
  if l.length % 2 = 1 then (sortAsc l).getD (l.length / 2) 0
  else ((sortAsc l).getD (l.length / 2 - 1) 0 + (sortAsc l).getD (l.length / 2) 0) / 2

/-- The rent_per_sqft values of the rows assigned to cluster c, the group
over which src/app.py takes the median (df.groupby on micro_market). -/
def memberRents (rows : List Row) (assign : List ℕ) (c : ℕ) : List ℚ :=
  ((assign.zip rows).filter (fun p => p.1 = c)).map (fun p => rent_per_sqft p.2)

/-- The cluster_median value mapped onto every row of cluster c. -/
def clusterMedian (rows : List Row) (assign : List ℕ) (c : ℕ) : ℚ :=
  median (memberRents rows assign c)

/-- The pricing_gap_pct column of the enriched table. -/
def gapColumn (rows : List Row) (assign : List ℕ) : List PVal :=
  (assign.zip rows).map
    (fun p => pricing_gap_pct (rent_per_sqft p.2) (clusterMedian rows assign p.1))

/-- The pricing_label column of the enriched table. -/
def labelColumn (rows : List Row) (assign : List ℕ) : List Label :=
  (gapColumn rows assign).map label

/-- Round to the nearest integer with ties going to the even neighbour: the
rounding used by pandas Series.round(0), which defers to numpy around. -/
def roundHalfEven (q : ℚ) : ℤ :=
  if q - ⌊q⌋ = 1 / 2 then (if ⌊q⌋ % 2 = 0 then ⌊q⌋ else ⌊q⌋ + 1) else round q

/-- The recommended_rent column of src/app.py:
(cluster_median * carpet_area_sqft).round(0). -/
def recommendedColumn (rows : List Row) (assign : List ℕ) : List ℤ :=
  (assign.zip rows).map
    (fun p => roundHalfEven (clusterMedian rows assign p.1 * p.2.carpet_area_sqft))

/-- The cluster_median column mapped onto every row (one value per row). -/
def medianColumn (rows : List Row) (assign : List ℕ) : List ℚ :=
  (assign.zip rows).map (fun p => clusterMedian rows assign p.1)

/-- Mean of a feature column, fitted over all rows. -/
def colMean (l : List ℚ) : ℚ := l.sum / l.length

/-- Population variance of a feature column (sklearn uses ddof 0). -/
def colVar (l : List ℚ) : ℚ := (l.map (fun x => (x - colMean l) ^ 2)).sum / l.length

/-- Rational square root surrogate for the float sqrt, exact on perfect
squares; only the zero test of the variance matters to the claims. -/
def ratSqrt (q : ℚ) : ℚ := (Nat.sqrt q.num.toNat : ℚ) / (Nat.sqrt q.den : ℚ)

/-- Modelled from the spec: the fitted scale of sklearn StandardScaler, whose
implementation is library code absent from this repository.  Spec section 4.2
requires the zero-variance guard: a column whose standard deviation is 0 must
come out as all zeros, so a zero scale is replaced by 1 (as sklearn does in
its handle-zeros-in-scale step). -/
def scaleOf (l : List ℚ) : ℚ := if colVar l = 0 then 1 else ratSqrt (colVar l)

/-- Standardization of one feature column: (x - mean) / scale for every
entry, with mean and scale fitted once over the whole column. -/
def standardizeCol (l : List ℚ) : List ℚ := l.map (fun x => (x - colMean l) / scaleOf l)

/-- The fixed-order feature vector of src/app.py (lines 89-98), with the
df.get defaults amenities_count = 1 and building_age = 10. -/
def featuresOf (r : Row) : List ℚ :=
  [r.latitude, r.longitude, rent_per_sqft r, r.carpet_area_sqft,
   r.amenities_count.getD 1, r.building_age.getD 10]

/-- Column j of a row-major matrix. -/
def colOf (X : List (List ℚ)) (j : ℕ) : List ℚ := X.map (fun r => r.getD j 0)

/-- StandardScaler().fit_transform over the feature matrix: every column is
standardized jointly over all rows, with the zero-variance guard of scaleOf. -/
def fitTransform (X : List (List ℚ)) : List (List ℚ) :=
  X.map (fun row => row.mapIdx (fun j x => (x - colMean (colOf X j)) / scaleOf (colOf X j)))

/-- Squared Euclidean distance between two feature vectors. -/
def dist2 (u v : List ℚ) : ℚ := (List.zipWith (fun a b => (a - b) ^ 2) u v).sum

/-- Index of the first minimum among the values already traversed (best value,
best index, current index, remaining values). -/
def argminAux : ℚ → ℕ → ℕ → List ℚ → ℕ
  | _, bi, _, [] => bi
  | bv, bi, ci, x :: xs =>
      if x < bv then argminAux x ci (ci + 1) xs else argminAux bv bi (ci + 1) xs

/-- Index of the first minimum of a list (0 on the empty list). -/
def argminIdx : List ℚ → ℕ
  | [] => 0
  | x :: xs => argminAux x 0 1 xs

/-- Assign every row to its nearest centroid; the first index wins ties. -/
def assignStep (cents : List (List ℚ)) (X : List (List ℚ)) : List ℕ :=
  X.map (fun x => argminIdx (cents.map (fun c => dist2 x c)))

/-- Coordinatewise sum of two feature vectors. -/
def vecAdd (u v : List ℚ) : List ℚ := List.zipWith (· + ·) u v

/-- Recompute each centroid as the mean of its assigned rows, keeping the old
centroid for an empty cluster. -/
def centroidStep (X : List (List ℚ)) (a : List ℕ) (cents : List (List ℚ)) :
    List (List ℚ) :=
  (List.range cents.length).map (fun j =>
    match ((a.zip X).filter (fun p => p.1 = j)).map (fun p => p.2) with
    | [] => cents.getD j []
    | v :: vs => (vs.foldl vecAdd v).map (fun q => q / (vs.length + 1)))

/-- Modelled from the spec: the iterative centroid relocation of sklearn
KMeans (library code absent from this repository), spec section 4.3: assign
each point to its nearest centroid by Euclidean distance, recompute centroids
as means of assigned points, repeat to convergence or an iteration cap, from
a deterministic start. -/
def lloyd : ℕ → List (List ℚ) → List (List ℚ) → List ℕ
  | 0, cents, X => assignStep cents X
  | n + 1, cents, X =>
      if centroidStep X (assignStep cents X) cents = cents then assignStep cents X
      else lloyd n (centroidStep X (assignStep cents X) cents) X

/-- The pipeline error taxonomy of spec section 7.  The source raises only
the schema error; invalidInput belongs to the taxonomy but no code path
constructs it. -/
inductive PipeError where
  | schemaMissing (cols : List String)
  | invalidClusterCount (k n : ℕ)
  | invalidInput (msg : String)
  deriving DecidableEq

/-- Modelled from the spec: the Segmenter contract of spec section 4.3 over
sklearn KMeans with its fixed seed (random_state 42 in src/app.py); it fails
exactly when k < 1 or k > N and otherwise runs deterministic centroid
relocation (iteration cap 300 as in sklearn) started from the first k rows. -/
def segment (X : List (List ℚ)) (k : ℕ) : Except PipeError (List ℕ) :=
  if k < 1 ∨ X.length < k then .error (.invalidClusterCount k X.length)
  else .ok (lloyd 300 (X.take k) X)

/-- The required upload columns of src/app.py (lines 71-75). -/
def requiredCols : List String :=
  ["latitude", "longitude", "carpet_area_sqft", "monthly_rent"]

/-- The missing-column computation of src/app.py (line 77): the required
columns not present in the upload, in required-column order. -/
def missingCols (cols : List String) : List String :=
  requiredCols.filter (fun c => ¬ (c ∈ cols))

/-- An uploaded table: its column names and its parsed records. -/
structure Table where
  cols : List String
  rows : List Row
  deriving DecidableEq

/-- The enriched table produced by one pipeline run. -/
structure Output where
  micro_market : List ℕ
  rentPerSqft : List ℚ
  cluster_median : List ℚ
  pricing_gap_pct : List PVal
  pricing_label : List Label
  recommended_rent : List ℤ
  deriving DecidableEq

/-- A full run of the src/app.py pipeline: validate the schema (the only
validation the source performs), derive rent_per_sqft, standardize the six
features, cluster into k micro-markets, and benchmark every record against
its cluster median. -/
def runPipeline (t : Table) (k : ℕ) : Except PipeError Output :=
  if missingCols t.cols ≠ [] then .error (.schemaMissing (missingCols t.cols))
  else
    (segment (fitTransform (t.rows.map featuresOf)) k).map (fun assign =>
      ⟨assign, t.rows.map rent_per_sqft, medianColumn t.rows assign,
       gapColumn t.rows assign, labelColumn t.rows assign,
       recommendedColumn t.rows assign⟩)

/-- The rental_yield column of src/src/compute_yield.py:
(annual_rent / property_value) * 100, computed with no validation. -/
def rental_yield (annual_rent property_value : ℚ) : ℚ :=
  annual_rent / property_value * 100

/-- A valid concrete record used to instantiate theorems. -/
def sampleRow : Row := ⟨0, 0, 1, 5, none, none⟩

/-- A one-record table with every required column present and a valid record. -/
def sampleTable : Table := ⟨requiredCols, [sampleRow]⟩

/-- A concrete record with a negative carpet area. -/
def negRow : Row := ⟨0, 0, -2, 6, none, none⟩

/-- A one-record table whose record has a negative carpet area; src/app.py
accepts it because no denominator validation exists. -/
def negAreaTable : Table := ⟨requiredCols, [negRow]⟩

/-- A concrete record whose monthly rent is zero, which drives its cluster
median to zero. -/
def zeroRentRow : Row := ⟨0, 0, 2, 0, none, none⟩

/-- Evaluation of the label function on a finite gap value. -/
theorem label_fin (q : ℚ) :
    label (.fin q) = if q < -10 then Label.Underpriced
      else if 10 < q then Label.Overpriced else Label.Fair := by
  simp [label, PVal.lt]

/-- A finite gap is labelled Underpriced exactly when it is below -10. -/
theorem label_fin_underpriced (q : ℚ) : label (.fin q) = .Underpriced ↔ q < -10 := by
  rw [label_fin]
  split_ifs with h1 h2
  · simp [h1]
  · simp [h1]
  · simp [h1]

/-- A finite gap is labelled Overpriced exactly when it is above 10. -/
theorem label_fin_overpriced (q : ℚ) : label (.fin q) = .Overpriced ↔ 10 < q := by
  rw [label_fin]
  split_ifs with h1 h2
  · simp
    linarith
  · simp [h2]
  · simp [h2]

/-- A finite gap is labelled Fair exactly when it lies in [-10, 10]. -/
theorem label_fin_fair (q : ℚ) : label (.fin q) = .Fair ↔ -10 ≤ q ∧ q ≤ 10 := by
  rw [label_fin]
  split_ifs with h1 h2
  · simp
    intro ha
    linarith
  · simp
    intro ha
    linarith
  · push_neg at h1 h2
    simp [h1, h2]

/-- C1: the pricing label is Underpriced exactly when the gap is below -10,
Overpriced exactly when the gap is above 10, and Fair otherwise; a gap of
exactly -10 or exactly 10 is labelled Fair, and every record receives exactly
one of the three labels. -/
theorem claim_C1_label_partition :
    (∀ q : ℚ, (label (.fin q) = .Underpriced ↔ q < -10)
      ∧ (label (.fin q) = .Overpriced ↔ 10 < q)
      ∧ (label (.fin q) = .Fair ↔ -10 ≤ q ∧ q ≤ 10))
    ∧ label (.fin (-10)) = .Fair
    ∧ label (.fin 10) = .Fair
    ∧ (∀ x : PVal,
        (label x = .Underpriced ∧ label x ≠ .Fair ∧ label x ≠ .Overpriced)
        ∨ (label x = .Fair ∧ label x ≠ .Underpriced ∧ label x ≠ .Overpriced)
        ∨ (label x = .Overpriced ∧ label x ≠ .Underpriced ∧ label x ≠ .Fair)) := by
  refine ⟨fun q => ⟨label_fin_underpriced q, label_fin_overpriced q, label_fin_fair q⟩,
    ?_, ?_, ?_⟩
  · rw [label_fin, if_neg (by norm_num), if_neg (by norm_num)]
  · rw [label_fin, if_neg (by norm_num), if_neg (by norm_num)]
  · intro x
    cases hx : label x with
    | Underpriced => exact Or.inl ⟨rfl, by decide, by decide⟩
    | Fair => exact Or.inr (Or.inl ⟨rfl, by decide, by decide⟩)
    | Overpriced => exact Or.inr (Or.inr ⟨rfl, by decide, by decide⟩)

/-- The sort underlying the median is sorted. -/
theorem sortAsc_sorted (l : List ℚ) : List.Sorted (· ≤ ·) (sortAsc l) :=
  List.sorted_insertionSort (· ≤ ·) l

/-- The sort underlying the median permutes the input. -/
theorem sortAsc_perm (l : List ℚ) : (sortAsc l).Perm l :=
  List.perm_insertionSort (· ≤ ·) l

/-- Sorting preserves length. -/
theorem sortAsc_length (l : List ℚ) : (sortAsc l).length = l.length :=
  (sortAsc_perm l).length_eq

/-- Entries of a sorted list grow with the index. -/
theorem sorted_getElem_le (s : List ℚ) (hs : List.Sorted (· ≤ ·) s)
    (j i : ℕ) (hj : j < s.length) (hi : i < s.length) (hle : j ≤ i) :
    s[j] ≤ s[i] := by
  rcases Nat.eq_or_lt_of_le hle with h | h
  · subst h
    exact le_refl _
  · exact (List.pairwise_iff_getElem.mp hs) j i hj hi h

/-- In a sorted list, at least i + 1 entries are at most the entry at i. -/
theorem countP_le_sorted (s : List ℚ) (hs : List.Sorted (· ≤ ·) s)
    (i : ℕ) (hi : i < s.length) :
    i + 1 ≤ s.countP (fun x => x ≤ s[i]) := by
  have hlen : (s.take (i + 1)).length = i + 1 := by
    rw [List.length_take]
    exact Nat.min_eq_left hi
  have hall : ∀ a ∈ s.take (i + 1), (fun x => decide (x ≤ s[i])) a = true := by
    intro a ha
    rcases List.mem_iff_getElem.mp ha with ⟨j, hj, rfl⟩
    simp only [List.getElem_take]
    have hj1 : j ≤ i := by
      rw [hlen] at hj
      omega
    exact decide_eq_true (sorted_getElem_le s hs j i (lt_of_le_of_lt hj1 hi) hi hj1)
  have hc : List.countP (fun x => decide (x ≤ s[i])) (s.take (i + 1)) = i + 1 := by
    rw [List.countP_eq_length.mpr hall, hlen]
  calc i + 1 = List.countP (fun x => decide (x ≤ s[i])) (s.take (i + 1)) := hc.symm
    _ ≤ List.countP (fun x => decide (x ≤ s[i])) (s.take (i + 1))
        + List.countP (fun x => decide (x ≤ s[i])) (s.drop (i + 1)) := Nat.le_add_right _ _
    _ = s.countP (fun x => x ≤ s[i]) := by
        rw [← List.countP_append, List.take_append_drop]

/-- In a sorted list, at least length - i entries are at least the entry at i. -/
theorem countP_ge_sorted (s : List ℚ) (hs : List.Sorted (· ≤ ·) s)
    (i : ℕ) (hi : i < s.length) :
    s.length - i ≤ s.countP (fun x => s[i] ≤ x) := by
  have hlen : (s.drop i).length = s.length - i := List.length_drop i s
  have hall : ∀ a ∈ s.drop i, (fun x => decide (s[i] ≤ x)) a = true := by
    intro a ha
    rcases List.mem_iff_getElem.mp ha with ⟨j, hj, rfl⟩
    simp only [List.getElem_drop]
    have hj2 : i + j < s.length := by
      rw [hlen] at hj
      omega
    exact decide_eq_true (sorted_getElem_le s hs i (i + j) hi hj2 (Nat.le_add_right i j))
  have hc : List.countP (fun x => decide (s[i] ≤ x)) (s.drop i) = s.length - i := by
    rw [List.countP_eq_length.mpr hall, hlen]
  calc s.length - i = List.countP (fun x => decide (s[i] ≤ x)) (s.drop i) := hc.symm
    _ ≤ List.countP (fun x => decide (s[i] ≤ x)) (s.take i)
        + List.countP (fun x => decide (s[i] ≤ x)) (s.drop i) := Nat.le_add_left _ _
    _ = s.countP (fun x => s[i] ≤ x) := by
        rw [← List.countP_append, List.take_append_drop]

/-- The pandas median of a nonempty list: at least half the entries are at
most the median and at least half are at least the median. -/
theorem median_count (l : List ℚ) (hl : l ≠ []) :
    l.length ≤ 2 * l.countP (fun x => x ≤ median l)
    ∧ l.length ≤ 2 * l.countP (fun x => median l ≤ x) := by
  have hn : l.length ≠ 0 := fun h => hl (List.length_eq_zero.mp h)
  have hs : List.Sorted (· ≤ ·) (sortAsc l) := sortAsc_sorted l
  have hsl : (sortAsc l).length = l.length := sortAsc_length l
  have hcount : ∀ p : ℚ → Bool, l.countP p = (sortAsc l).countP p :=
    fun p => ((sortAsc_perm l).countP_eq p).symm
  by_cases hpar : l.length % 2 = 1
  · have hi : l.length / 2 < (sortAsc l).length := by
      rw [hsl]
      omega
    have hmed : median l = (sortAsc l)[l.length / 2] := by
      rw [median, if_pos hpar]
      exact List.getD_eq_getElem (sortAsc l) 0 hi
    constructor
    · rw [hcount, hmed]
      have h1 := countP_le_sorted (sortAsc l) hs (l.length / 2) hi
      omega
    · rw [hcount, hmed]
      have h1 := countP_ge_sorted (sortAsc l) hs (l.length / 2) hi
      rw [hsl] at h1
      omega
  · have ht1 : l.length / 2 - 1 < (sortAsc l).length := by
      rw [hsl]
      omega
    have ht : l.length / 2 < (sortAsc l).length := by
      rw [hsl]
      omega
    have hab : (sortAsc l)[l.length / 2 - 1] ≤ (sortAsc l)[l.length / 2] :=
      sorted_getElem_le (sortAsc l) hs _ _ ht1 ht (by omega)
    have hmed : median l = ((sortAsc l)[l.length / 2 - 1] + (sortAsc l)[l.length / 2]) / 2 := by
      rw [median, if_neg hpar, List.getD_eq_getElem (sortAsc l) 0 ht1,
        List.getD_eq_getElem (sortAsc l) 0 ht]
    have hm1 : (sortAsc l)[l.length / 2 - 1] ≤ median l := by
      rw [hmed]
      linarith
    have hm2 : median l ≤ (sortAsc l)[l.length / 2] := by
      rw [hmed]
      linarith
    constructor
    · rw [hcount]
      have h1 := countP_le_sorted (sortAsc l) hs (l.length / 2 - 1) ht1
      have h2 : (sortAsc l).countP (fun x => x ≤ (sortAsc l)[l.length / 2 - 1])
          ≤ (sortAsc l).countP (fun x => x ≤ median l) :=
        List.countP_mono_left
          (fun x _ hx => decide_eq_true (le_trans (of_decide_eq_true hx) hm1))
      rw [hsl] at ht1 ht
      omega
    · rw [hcount]
      have h1 := countP_ge_sorted (sortAsc l) hs (l.length / 2) ht
      have h2 : (sortAsc l).countP (fun x => (sortAsc l)[l.length / 2] ≤ x)
          ≤ (sortAsc l).countP (fun x => median l ≤ x) :=
        List.countP_mono_left
          (fun x _ hx => decide_eq_true (le_trans hm2 (of_decide_eq_true hx)))
      rw [hsl] at h1
      omega

/-- The median of a one-element list is that element. -/
theorem median_singleton (a : ℚ) : median [a] = a := by
  simp [median, sortAsc, List.insertionSort, List.orderedInsert]

/-- The length of the rows of cluster c equals the count of c in the
assignment vector. -/
theorem filter_zip_fst_length (p : ℕ → Bool) (a : List ℕ) :
    ∀ r : List Row, a.length = r.length →
      ((a.zip r).filter (fun q => p q.1)).length = a.countP p := by
  induction a with
  | nil =>
    intro r h
    simp
  | cons x xs ih =>
    intro r h
    cases r with
    | nil => simp at h
    | cons y ys =>
      have h2 : xs.length = ys.length := by simpa using h
      simp only [List.zip_cons_cons, List.filter_cons, List.countP_cons]
      by_cases hx : p x
      · simp [hx, ih ys h2]
      · simp [hx, ih ys h2]

/-- A record that is the sole member of its cluster yields a one-element
median group, namely its own rent_per_sqft. -/
theorem memberRents_single (rows : List Row) (assign : List ℕ)
    (h : assign.length = rows.length) (i : ℕ) (hi : i < rows.length)
    (hc : assign.countP (fun a => a = assign.getD i 0) = 1) :
    memberRents rows assign (assign.getD i 0) = [rent_per_sqft (rows.getD i default)] := by
  have hia : i < assign.length := by
    rw [h]
    exact hi
  have hiz : i < (assign.zip rows).length := by
    rw [List.length_zip, h, Nat.min_self]
    exact hi
  set c := assign.getD i 0 with hc_def
  set filt := (assign.zip rows).filter (fun p => p.1 = c) with hf_def
  have hflen : filt.length = 1 := by
    have hzip := filter_zip_fst_length (fun x => x = c) assign rows h
    rw [hf_def]
    exact hzip.trans hc
  have hmem : (assign[i], rows[i]) ∈ filt := by
    rw [hf_def]
    refine List.mem_filter.mpr ⟨?_, ?_⟩
    · have hz : (assign.zip rows)[i] = (assign[i], rows[i]) := List.getElem_zip
      rw [← hz]
      exact List.getElem_mem hiz
    · exact decide_eq_true ((List.getD_eq_getElem assign 0 hia).symm : assign[i] = c)
  rcases List.length_eq_one.mp hflen with ⟨x, hx⟩
  have hpair : (assign[i], rows[i]) = x := by
    rw [hx] at hmem
    exact List.mem_singleton.mp hmem
  have hfilt_eq : filt = [(assign[i], rows[i])] := by
    rw [hx, ← hpair]
  show filt.map (fun p => rent_per_sqft p.2) = [rent_per_sqft (rows.getD i default)]
  rw [hfilt_eq, List.getD_eq_getElem rows default hi]
  rfl

/-- Entry i of the pricing_gap_pct column. -/
theorem gapColumn_getD (rows : List Row) (assign : List ℕ)
    (h : assign.length = rows.length) (i : ℕ) (hi : i < rows.length) :
    (gapColumn rows assign).getD i .nan
      = pricing_gap_pct (rent_per_sqft (rows.getD i default))
          (clusterMedian rows assign (assign.getD i 0)) := by
  have hia : i < assign.length := by
    rw [h]
    exact hi
  have hiz : i < (assign.zip rows).length := by
    rw [List.length_zip, h, Nat.min_self]
    exact hi
  have hlen : i < (gapColumn rows assign).length := by
    rw [gapColumn, List.length_map]
    exact hiz
  rw [List.getD_eq_getElem _ _ hlen]
  simp only [gapColumn, List.getElem_map, List.getElem_zip]
  rw [List.getD_eq_getElem rows default hi, List.getD_eq_getElem assign 0 hia]

/-- Entry i of the pricing_label column. -/
theorem labelColumn_getD (rows : List Row) (assign : List ℕ)
    (h : assign.length = rows.length) (i : ℕ) (hi : i < rows.length) :
    (labelColumn rows assign).getD i .Fair = label ((gapColumn rows assign).getD i .nan) := by
  have hiz : i < (assign.zip rows).length := by
    rw [List.length_zip, h, Nat.min_self]
    exact hi
  have hg : i < (gapColumn rows assign).length := by
    rw [gapColumn, List.length_map]
    exact hiz
  have hl : i < (labelColumn rows assign).length := by
    rw [labelColumn, List.length_map]
    exact hg
  rw [List.getD_eq_getElem _ _ hl, List.getD_eq_getElem _ _ hg]
  simp only [labelColumn, List.getElem_map]

/-- A record sitting exactly at its cluster median has gap 0 whenever the
median is nonzero. -/
theorem pricing_gap_self (r : ℚ) (hr : r ≠ 0) : pricing_gap_pct r r = .fin 0 := by
  simp [pricing_gap_pct, pdiv, pmul100, hr]

/-- C2: in every pipeline run over records satisfying the documented input
invariant (positive area and positive rent), every nonempty cluster has at
least half its member rents at most the cluster median and at least half at
least the cluster median; and a record that is the sole member of its cluster
has cluster median equal to its own rent_per_sqft, pricing gap 0 and label
Fair. -/
theorem claim_C2_median_invariant (rows : List Row) (assign : List ℕ)
    (h : assign.length = rows.length)
    (hval : ∀ r ∈ rows, 0 < r.carpet_area_sqft ∧ 0 < r.monthly_rent) :
    (∀ c : ℕ, memberRents rows assign c ≠ [] →
      (memberRents rows assign c).length
          ≤ 2 * (memberRents rows assign c).countP (fun x => x ≤ clusterMedian rows assign c)
        ∧ (memberRents rows assign c).length
          ≤ 2 * (memberRents rows assign c).countP (fun x => clusterMedian rows assign c ≤ x))
    ∧ (∀ i : ℕ, i < rows.length →
        assign.countP (fun a => a = assign.getD i 0) = 1 →
        clusterMedian rows assign (assign.getD i 0) = rent_per_sqft (rows.getD i default)
        ∧ (gapColumn rows assign).getD i .nan = .fin 0
        ∧ (labelColumn rows assign).getD i .Fair = .Fair) := by
  constructor
  · intro c hne
    exact median_count (memberRents rows assign c) hne
  · intro i hi hc
    have hmem := memberRents_single rows assign h i hi hc
    have hmed : clusterMedian rows assign (assign.getD i 0)
        = rent_per_sqft (rows.getD i default) := by
      rw [clusterMedian, hmem, median_singleton]
    have hrow : rows.getD i default ∈ rows := by
      rw [List.getD_eq_getElem rows default hi]
      exact List.getElem_mem hi
    have hrpos : 0 < rent_per_sqft (rows.getD i default) :=
      div_pos (hval _ hrow).2 (hval _ hrow).1
    have hgap : (gapColumn rows assign).getD i .nan = .fin 0 := by
      rw [gapColumn_getD rows assign h i hi, hmed]
      exact pricing_gap_self _ hrpos.ne'
    refine ⟨hmed, hgap, ?_⟩
    rw [labelColumn_getD rows assign h i hi, hgap, label_fin]
    norm_num

/-- Witness for C2 at a one-record table assigned to a single cluster. -/
theorem claim_C2_median_invariant_witness :
    clusterMedian [sampleRow] [0] (([0] : List ℕ).getD 0 0)
      = rent_per_sqft ([sampleRow].getD 0 default)
    ∧ (gapColumn [sampleRow] [0]).getD 0 .nan = .fin 0
    ∧ (labelColumn [sampleRow] [0]).getD 0 .Fair = .Fair :=
  (claim_C2_median_invariant [sampleRow] [0] rfl
      (by
        intro r hr
        rw [List.mem_singleton] at hr
        subst hr
        exact ⟨by norm_num [sampleRow], by norm_num [sampleRow]⟩)).2
    0 (by norm_num) (by decide)

/-- Entry i of the recommended_rent column. -/
theorem recommendedColumn_getD (rows : List Row) (assign : List ℕ)
    (h : assign.length = rows.length) (i : ℕ) (hi : i < rows.length) :
    (recommendedColumn rows assign).getD i 0
      = roundHalfEven (clusterMedian rows assign (assign.getD i 0)
          * (rows.getD i default).carpet_area_sqft) := by
  have hia : i < assign.length := by
    rw [h]
    exact hi
  have hiz : i < (assign.zip rows).length := by
    rw [List.length_zip, h, Nat.min_self]
    exact hi
  have hlen : i < (recommendedColumn rows assign).length := by
    rw [recommendedColumn, List.length_map]
    exact hiz
  rw [List.getD_eq_getElem _ _ hlen]
  simp only [recommendedColumn, List.getElem_map, List.getElem_zip]
  rw [List.getD_eq_getElem rows default hi, List.getD_eq_getElem assign 0 hia]

/-- Counterexample to C3: in the one-record run whose record has zero rent,
the cluster median is 0 and the pipeline emits a NaN pricing gap, not the
gap 0 required by the claim (no zero-median guard exists in src/app.py). -/
theorem claim_C3_counterexample :
    clusterMedian [zeroRentRow] [0] 0 = 0
    ∧ (gapColumn [zeroRentRow] [0]).getD 0 .nan = .nan
    ∧ (gapColumn [zeroRentRow] [0]).getD 0 .nan ≠ .fin 0 := by
  have hmed : clusterMedian [zeroRentRow] [0] 0 = 0 := by
    simp [clusterMedian, memberRents, zeroRentRow, rent_per_sqft, median_singleton]
  have hgap : (gapColumn [zeroRentRow] [0]).getD 0 .nan = .nan := by
    simp [gapColumn, clusterMedian, memberRents, zeroRentRow, rent_per_sqft,
      median_singleton, pricing_gap_pct, pdiv, pmul100]
  exact ⟨hmed, hgap, by rw [hgap]; exact fun hcontra => PVal.noConfusion hcontra⟩

/-- C3 amended: when a cluster median is 0 the pipeline still does not raise,
but no guard exists: the pricing gap is NaN when the rent_per_sqft of the
record is 0 (labelled Fair), positive infinity when it is positive (labelled
Overpriced), and negative infinity when it is negative (labelled
Underpriced). -/
theorem claim_C3_amended (rows : List Row) (assign : List ℕ)
    (h : assign.length = rows.length) (i : ℕ) (hi : i < rows.length)
    (hmed : clusterMedian rows assign (assign.getD i 0) = 0) :
    (gapColumn rows assign).getD i .nan
      = (if 0 < rent_per_sqft (rows.getD i default) then .pinf
         else if rent_per_sqft (rows.getD i default) < 0 then .ninf else .nan)
    ∧ (labelColumn rows assign).getD i .Fair
      = (if 0 < rent_per_sqft (rows.getD i default) then .Overpriced
         else if rent_per_sqft (rows.getD i default) < 0 then .Underpriced else .Fair) := by
  have hgap : (gapColumn rows assign).getD i .nan
      = (if 0 < rent_per_sqft (rows.getD i default) then PVal.pinf
         else if rent_per_sqft (rows.getD i default) < 0 then PVal.ninf else PVal.nan) := by
    rw [gapColumn_getD rows assign h i hi, hmed]
    simp only [pricing_gap_pct, pdiv, sub_zero, if_pos rfl]
    split_ifs <;> rfl
  refine ⟨hgap, ?_⟩
  rw [labelColumn_getD rows assign h i hi, hgap]
  split_ifs <;> rfl

/-- Witness for the amended C3 at the concrete zero-rent table. -/
theorem claim_C3_amended_witness :
    (gapColumn [zeroRentRow] [0]).getD 0 .nan
      = (if 0 < rent_per_sqft ([zeroRentRow].getD 0 default) then .pinf
         else if rent_per_sqft ([zeroRentRow].getD 0 default) < 0 then .ninf else .nan)
    ∧ (labelColumn [zeroRentRow] [0]).getD 0 .Fair
      = (if 0 < rent_per_sqft ([zeroRentRow].getD 0 default) then .Overpriced
         else if rent_per_sqft ([zeroRentRow].getD 0 default) < 0 then .Underpriced
         else .Fair) :=
  claim_C3_amended [zeroRentRow] [0] rfl 0 (by norm_num)
    (by simp [clusterMedian, memberRents, zeroRentRow, rent_per_sqft, median_singleton])

/-- C7: every record receives recommended_rent equal to the half-to-even
rounding of cluster_median * carpet_area_sqft; the rounding is to a nearest
integer (within 1/2 of the exact product), and an exact half goes to the even
integer, the same rule for every record. -/
theorem claim_C7_recommended_rounding (rows : List Row) (assign : List ℕ)
    (h : assign.length = rows.length) (i : ℕ) (hi : i < rows.length) :
    (recommendedColumn rows assign).getD i 0
      = roundHalfEven (clusterMedian rows assign (assign.getD i 0)
          * (rows.getD i default).carpet_area_sqft)
    ∧ (∀ q : ℚ, |(roundHalfEven q : ℚ) - q| ≤ 1 / 2)
    ∧ (∀ q : ℚ, q - (⌊q⌋ : ℚ) = 1 / 2 → roundHalfEven q % 2 = 0) := by
  refine ⟨recommendedColumn_getD rows assign h i hi, ?_, ?_⟩
  · intro q
    unfold roundHalfEven
    split_ifs with h1 h2
    · rw [abs_le]
      constructor <;> linarith
    · rw [abs_le]
      push_cast
      constructor <;> linarith
    · rw [abs_sub_comm]
      exact abs_sub_round q
  · intro q hq
    unfold roundHalfEven
    rw [if_pos hq]
    split_ifs with h2
    · exact h2
    · omega

/-- Witness for C7 at the concrete one-record table. -/
theorem claim_C7_recommended_rounding_witness :
    (recommendedColumn [sampleRow] [0]).getD 0 0
      = roundHalfEven (clusterMedian [sampleRow] [0] (([0] : List ℕ).getD 0 0)
          * ([sampleRow].getD 0 default).carpet_area_sqft)
    ∧ (∀ q : ℚ, |(roundHalfEven q : ℚ) - q| ≤ 1 / 2)
    ∧ (∀ q : ℚ, q - (⌊q⌋ : ℚ) = 1 / 2 → roundHalfEven q % 2 = 0) :=
  claim_C7_recommended_rounding [sampleRow] [0] rfl 0 (by norm_num)

/-- C10: a record that is the sole member of its cluster is recommended the
rounding of its own monthly rent, because the cluster median is its own
rent_per_sqft and rent_per_sqft * carpet_area_sqft recovers monthly_rent. -/
theorem claim_C10_sole_member_rent (rows : List Row) (assign : List ℕ)
    (h : assign.length = rows.length) (i : ℕ) (hi : i < rows.length)
    (hc : assign.countP (fun a => a = assign.getD i 0) = 1)
    (ha : (rows.getD i default).carpet_area_sqft ≠ 0) :
    (recommendedColumn rows assign).getD i 0
      = roundHalfEven (rows.getD i default).monthly_rent := by
  rw [recommendedColumn_getD rows assign h i hi, clusterMedian,
    memberRents_single rows assign h i hi hc, median_singleton, rent_per_sqft,
    div_mul_cancel₀ _ ha]

/-- Witness for C10 at the concrete one-record table. -/
theorem claim_C10_sole_member_rent_witness :
    (recommendedColumn [sampleRow] [0]).getD 0 0
      = roundHalfEven ([sampleRow].getD 0 default).monthly_rent :=
  claim_C10_sole_member_rent [sampleRow] [0] rfl 0 (by norm_num) (by decide)
    (by norm_num [sampleRow])

/-- A constant column has mean equal to the constant. -/
theorem colMean_const (l : List ℚ) (c : ℚ) (hl : l ≠ []) (hc : ∀ x ∈ l, x = c) :
    colMean l = c := by
  have hsum : l.sum = l.length • c := List.sum_eq_card_nsmul l c hc
  have hn : (l.length : ℚ) ≠ 0 := by
    have := List.length_pos.mpr hl
    exact_mod_cast Nat.cast_ne_zero.mpr (Nat.pos_iff_ne_zero.mp this)
  rw [colMean, hsum, nsmul_eq_mul, mul_div_cancel_left₀ _ hn]

/-- A constant column has variance 0. -/
theorem colVar_const (l : List ℚ) (c : ℚ) (hl : l ≠ []) (hc : ∀ x ∈ l, x = c) :
    colVar l = 0 := by
  have hmean := colMean_const l c hl hc
  have hzero : (l.map (fun x => (x - colMean l) ^ 2)).sum = 0 := by
    apply List.sum_eq_zero
    intro y hy
    rcases List.mem_map.mp hy with ⟨x, hx, rfl⟩
    rw [hmean, hc x hx, sub_self]
    ring
  rw [colVar, hzero, zero_div]

/-- A constant column standardizes to all zeros through the zero-variance
guard. -/
theorem standardizeCol_const (l : List ℚ) (c : ℚ) (hc : ∀ x ∈ l, x = c) :
    standardizeCol l = l.map (fun _ => 0) := by
  cases hl : l with
  | nil => rfl
  | cons y ys =>
    rw [← hl]
    have hne : l ≠ [] := by
      rw [hl]
      exact List.cons_ne_nil y ys
    have hmean := colMean_const l c hne hc
    have hvar := colVar_const l c hne hc
    apply List.map_congr_left
    intro x hx
    rw [scaleOf, if_pos hvar, hmean, hc x hx, sub_self, zero_div]

/-- A one-entry column has variance 0. -/
theorem colVar_singleton (y : ℚ) : colVar [y] = 0 :=
  colVar_const [y] y (List.cons_ne_nil y []) (fun _ hx => List.mem_singleton.mp hx)

/-- A one-entry column standardizes to the zero entry. -/
theorem standardize_entry_singleton (x : ℚ) : (x - colMean [x]) / scaleOf [x] = 0 := by
  rw [scaleOf, if_pos (colVar_singleton x),
    colMean_const [x] x (List.cons_ne_nil x []) (fun y hy => List.mem_singleton.mp hy),
    sub_self, zero_div]

/-- A single-row matrix standardizes to the zero matrix: every column is a
singleton, hence constant. -/
theorem fitTransform_single (v : List ℚ) :
    fitTransform [v] = [v.map (fun _ => 0)] := by
  unfold fitTransform
  rw [List.map_cons, List.map_nil]
  congr 1
  apply List.ext_getElem
  · rw [List.length_mapIdx, List.length_map]
  · intro n h1 h2
    rw [List.getElem_mapIdx, List.getElem_map]
    have hn : n < v.length := by
      rw [List.length_mapIdx] at h1
      exact h1
    have hcol : colOf [v] n = [v[n]] := by
      rw [colOf, List.map_cons, List.map_nil, List.getD_eq_getElem v 0 hn]
    rw [hcol]
    exact standardize_entry_singleton v[n]

/-- C8: a feature column whose values are all identical standardizes to the
all-zero column (never NaN or infinity, which do not inhabit the rational
embedding because the zero scale is replaced before dividing), and for a
single-record table the whole normalized feature matrix is the zero matrix. -/
theorem claim_C8_zero_variance (col : List ℚ) (c : ℚ) (hc : ∀ x ∈ col, x = c) :
    standardizeCol col = col.map (fun _ => 0)
    ∧ ∀ r : Row, fitTransform [featuresOf r] = [[0, 0, 0, 0, 0, 0]] := by
  refine ⟨standardizeCol_const col c hc, ?_⟩
  intro r
  rw [fitTransform_single, featuresOf]
  rfl

/-- Witness for C8 at a concrete constant column. -/
theorem claim_C8_zero_variance_witness :
    standardizeCol [2, 2] = ([2, 2] : List ℚ).map (fun _ => 0)
    ∧ ∀ r : Row, fitTransform [featuresOf r] = [[0, 0, 0, 0, 0, 0]] :=
  claim_C8_zero_variance [2, 2] 2
    (by
      intro x hx
      rcases List.mem_cons.mp hx with h | h
      · exact h
      · exact List.mem_singleton.mp h)

/-- The first-minimum index stays below any bound covering both the running
best index and the remaining positions. -/
theorem argminAux_lt (k : ℕ) :
    ∀ (xs : List ℚ) (bv : ℚ) (bi ci : ℕ), bi < k → ci + xs.length ≤ k →
      argminAux bv bi ci xs < k := by
  intro xs
  induction xs with
  | nil =>
    intro bv bi ci hbi hci
    simpa [argminAux] using hbi
  | cons x xs ih =>
    intro bv bi ci hbi hci
    rw [List.length_cons] at hci
    rw [argminAux]
    split_ifs
    · exact ih x ci (ci + 1) (by omega) (by omega)
    · exact ih bv bi (ci + 1) hbi (by omega)

/-- The first-minimum index of a nonempty list is a valid index. -/
theorem argminIdx_lt (l : List ℚ) (hl : l ≠ []) : argminIdx l < l.length := by
  cases l with
  | nil => exact absurd rfl hl
  | cons x xs =>
    rw [argminIdx, List.length_cons]
    exact argminAux_lt (xs.length + 1) xs x 0 1 (by omega) (by omega)

/-- Every id assigned by the nearest-centroid step indexes a centroid. -/
theorem assignStep_lt (cents X : List (List ℚ)) (hc : cents ≠ []) :
    ∀ a ∈ assignStep cents X, a < cents.length := by
  intro a ha
  rcases List.mem_map.mp ha with ⟨x, _, rfl⟩
  have hne : cents.map (fun c => dist2 x c) ≠ [] := by
    intro hnil
    exact hc (List.map_eq_nil_iff.mp hnil)
  have hlt := argminIdx_lt (cents.map (fun c => dist2 x c)) hne
  rwa [List.length_map] at hlt

/-- The assignment step produces one id per row. -/
theorem assignStep_length (cents X : List (List ℚ)) :
    (assignStep cents X).length = X.length := List.length_map X _

/-- The centroid update keeps the number of centroids. -/
theorem centroidStep_length (X : List (List ℚ)) (a : List ℕ) (cents : List (List ℚ)) :
    (centroidStep X a cents).length = cents.length := by
  rw [centroidStep, List.length_map, List.length_range]

/-- Through every relocation round the assignment stays one id per row, each
id below the centroid count. -/
theorem lloyd_spec (X : List (List ℚ)) :
    ∀ (fuel : ℕ) (cents : List (List ℚ)), cents ≠ [] →
      (∀ a ∈ lloyd fuel cents X, a < cents.length)
      ∧ (lloyd fuel cents X).length = X.length := by
  intro fuel
  induction fuel with
  | zero =>
    intro cents hc
    exact ⟨assignStep_lt cents X hc, assignStep_length cents X⟩
  | succ n ih =>
    intro cents hc
    rw [lloyd]
    split_ifs with heq
    · exact ⟨assignStep_lt cents X hc, assignStep_length cents X⟩
    · have hlen := centroidStep_length X (assignStep cents X) cents
      have hc2 : centroidStep X (assignStep cents X) cents ≠ [] := by
        intro hnil
        apply hc
        have : cents.length = 0 := by
          rw [← hlen, hnil]
          rfl
        exact List.length_eq_zero.mp this
      have hrec := ih (centroidStep X (assignStep cents X) cents) hc2
      refine ⟨?_, hrec.2⟩
      intro a ha
      have := hrec.1 a ha
      rwa [hlen] at this

/-- C6: the Segmenter fails with the invalid-cluster-count error exactly when
k < 1 or k > N; any error it produces is that error; and for 1 <= k <= N it
succeeds, assigning every record a cluster id in [0, k). -/
theorem claim_C6_cluster_count (X : List (List ℚ)) (k : ℕ) :
    ((∃ e, segment X k = .error e) ↔ (k < 1 ∨ X.length < k))
    ∧ (∀ e, segment X k = .error e → e = .invalidClusterCount k X.length)
    ∧ (1 ≤ k → k ≤ X.length →
        ∃ a, segment X k = .ok a ∧ a.length = X.length ∧ ∀ c ∈ a, c < k) := by
  by_cases hg : k < 1 ∨ X.length < k
  · refine ⟨⟨fun _ => hg, fun _ => ⟨_, by rw [segment, if_pos hg]⟩⟩, ?_, ?_⟩
    · intro e he
      rw [segment, if_pos hg] at he
      exact (Except.error.inj he).symm
    · intro hk hn
      omega
  · have hseg : segment X k = .ok (lloyd 300 (X.take k) X) := by
      rw [segment, if_neg hg]
    refine ⟨⟨fun he => ?_, fun hcond => absurd hcond hg⟩, ?_, ?_⟩
    · rcases he with ⟨e, he⟩
      rw [hseg] at he
      exact Except.noConfusion he
    · intro e he
      rw [hseg] at he
      exact absurd he (Except.noConfusion)
    · intro hk hn
      have htk : (X.take k).length = k := by
        rw [List.length_take]
        exact Nat.min_eq_left hn
      have hne : X.take k ≠ [] := by
        intro hnil
        have : (X.take k).length = 0 := by
          rw [hnil]
          rfl
        omega
      have hrun := lloyd_spec X 300 (X.take k) hne
      refine ⟨lloyd 300 (X.take k) X, hseg, hrun.2, ?_⟩
      intro c hcmem
      have := hrun.1 c hcmem
      rwa [htk] at this

/-- Witness for C6: a one-point matrix with k = 1 clusters succeeds with the
sole id 0. -/
theorem claim_C6_cluster_count_witness :
    ∃ a, segment [[(0 : ℚ)]] 1 = .ok a ∧ a.length = ([[(0 : ℚ)]] : List (List ℚ)).length
      ∧ ∀ c ∈ a, c < 1 :=
  (claim_C6_cluster_count [[(0 : ℚ)]] 1).2.2 (by norm_num) (by norm_num)

/-- C5: when required columns are absent the pipeline stops with the schema
error carrying exactly the missing names (the filter of the required list);
when none is absent no schema error is raised; and the upload missing only
monthly_rent yields exactly that one name. -/
theorem claim_C5_schema_validation (t : Table) (k : ℕ) :
    (missingCols t.cols ≠ [] → runPipeline t k = .error (.schemaMissing (missingCols t.cols)))
    ∧ (missingCols t.cols = [] → ∀ l, runPipeline t k ≠ .error (.schemaMissing l))
    ∧ missingCols ["latitude", "longitude", "carpet_area_sqft"] = ["monthly_rent"] := by
  refine ⟨?_, ?_, ?_⟩
  · intro hm
    rw [runPipeline, if_pos hm]
  · intro hm l hcontra
    rw [runPipeline, if_neg (by simp [hm])] at hcontra
    rw [segment] at hcontra
    split_ifs at hcontra with hg
    · simp [Except.map] at hcontra
    · simp [Except.map] at hcontra
  · simp [missingCols, requiredCols]

/-- Witness for C5: a complete upload raises no schema error, and the one
missing monthly_rent is reported as exactly that. -/
theorem claim_C5_schema_validation_witness :
    (∀ l, runPipeline sampleTable 1 ≠ .error (.schemaMissing l))
    ∧ missingCols ["latitude", "longitude", "carpet_area_sqft"] = ["monthly_rent"] :=
  ⟨(claim_C5_schema_validation sampleTable 1).2.1
      (by simp [sampleTable, missingCols, requiredCols]),
    (claim_C5_schema_validation sampleTable 1).2.2⟩

/-- Counterexample to C4: a batch whose record has a negative carpet area is
accepted by the pipeline (no InvalidInputError is raised, the run returns
ok), and the yield helper likewise divides by a non-positive property value
without error. -/
theorem claim_C4_counterexample :
    negRow.carpet_area_sqft < 0
    ∧ (runPipeline negAreaTable 1).isOk = true
    ∧ rental_yield 100 (-50) = -200 := by
  refine ⟨by norm_num [negRow], ?_, by norm_num [rental_yield]⟩
  have hmiss : missingCols negAreaTable.cols = [] := by
    simp [negAreaTable, missingCols, requiredCols]
  have hguard : ¬ (1 < 1 ∨ (fitTransform (negAreaTable.rows.map featuresOf)).length < 1) := by
    simp [fitTransform, negAreaTable]
  rw [runPipeline, if_neg (by simp [hmiss]), segment, if_neg hguard]
  rfl

/-- C4 amended: the pipeline performs no denominator validation at all:
whenever the schema is complete and the cluster count is in range it
succeeds, whatever the signs of carpet_area_sqft, and the rent_per_sqft
column is computed by plain division for every record of the batch. -/
theorem claim_C4_amended (t : Table) (k : ℕ)
    (hm : missingCols t.cols = []) (hk : 1 ≤ k) (hn : k ≤ t.rows.length) :
    ∃ out, runPipeline t k = .ok out ∧ out.rentPerSqft = t.rows.map rent_per_sqft := by
  have hXlen : (fitTransform (t.rows.map featuresOf)).length = t.rows.length := by
    rw [fitTransform, List.length_map, List.length_map]
  have hguard : ¬ (k < 1 ∨ (fitTransform (t.rows.map featuresOf)).length < k) := by
    rw [hXlen]
    omega
  rw [runPipeline, if_neg (by simp [hm]), segment, if_neg hguard]
  exact ⟨_, rfl, rfl⟩

/-- Witness for the amended C4 at the concrete negative-area table. -/
theorem claim_C4_amended_witness :
    ∃ out, runPipeline negAreaTable 1 = .ok out
      ∧ out.rentPerSqft = negAreaTable.rows.map rent_per_sqft :=
  claim_C4_amended negAreaTable 1 (by simp [negAreaTable, missingCols, requiredCols])
    (by norm_num) (by simp [negAreaTable])

/-- C9: the pipeline is a pure function of the table and k (the seed is the
fixed constant 42 in the source), so two runs with equal inputs produce
identical pricing_label and recommended_rent columns. -/
theorem claim_C9_determinism (t1 t2 : Table) (k1 k2 : ℕ) (ht : t1 = t2) (hk : k1 = k2) :
    (runPipeline t1 k1).map (fun o => o.pricing_label)
      = (runPipeline t2 k2).map (fun o => o.pricing_label)
    ∧ (runPipeline t1 k1).map (fun o => o.recommended_rent)
      = (runPipeline t2 k2).map (fun o => o.recommended_rent) := by
  subst ht hk
  exact ⟨rfl, rfl⟩

/-- Witness for C9 at the concrete sample table. -/
theorem claim_C9_determinism_witness :
    (runPipeline sampleTable 1).map (fun o => o.pricing_label)
      = (runPipeline sampleTable 1).map (fun o => o.pricing_label)
    ∧ (runPipeline sampleTable 1).map (fun o => o.recommended_rent)
      = (runPipeline sampleTable 1).map (fun o => o.recommended_rent) :=
  claim_C9_determinism sampleTable sampleTable 1 1 rfl rfl

end Rental
